import Mathlib

/-!
Shallow embedding of the `seller-apis` repository (files `seller.py` and
`market.py`) and verification of its specification claims.

Conventions of the embedding:
  * Remnant rows (`watch_remnants`) are records of the three string fields the
    pipeline reads: `"Код"` (here `kod`), `"Количество"` (`kolichestvo`) and
    `"Цена"` (`tsena`).  The `str(...)` coercions in the source are identities
    here because the fields are already strings.
  * Python code that can raise (`int(...)` on a non-numeric string, `range`
    with step `0`) is embedded in `Except String`.
  * Python's `list.remove` is `List.erase` (the membership test guards the
    call, so the `ValueError` branch of `remove` is unreachable).
  * Network calls are abstracted: the paginated product-listing endpoint
    becomes a function from the cursor to the response, and the orchestrators
    are modelled as the list of update calls they issue, in order.
-/

/-- Python `int(s)` on a string: optional surrounding whitespace, an optional
sign, then one or more ASCII digits; `none` models the `ValueError` raised on
any other input. -/
def pyInt? (s : String) : Option Int :=
  let t := ((s.data.dropWhile Char.isWhitespace).reverse.dropWhile
    Char.isWhitespace).reverse
  let signDigits : Int × List Char :=
    match t with
    | '-' :: rest => (-1, rest)
    | '+' :: rest => (1, rest)
    | cs => (1, cs)
  if signDigits.2 ≠ [] ∧ signDigits.2.all Char.isDigit then
    some (signDigits.1 *
      (signDigits.2.foldl (fun acc c => 10 * acc + (c.toNat - '0'.toNat)) 0 : Nat))
  else none

/-- One row of the external stock feed, with the three fields the pipeline
reads: `Код` (code), `Количество` (quantity), `Цена` (price). -/
structure Remnant where
  kod : String
  kolichestvo : String
  tsena : String
deriving Repr, DecidableEq

namespace Seller

/-- `price_conversion` (seller.py, lines 243-265):
`re.sub("[^0-9]", "", price.split(".")[0])` — keep the part before the first
`.`, then delete every character that is not an ASCII digit. -/
def price_conversion (price : String) : String :=
  String.mk ((price.data.takeWhile (fun c => c ≠ '.')).filter Char.isDigit)

/-- The count rule of `create_stocks` (seller.py lines 197-203, identical in
market.py lines 181-187): sentinel `">10"` gives `100`, sentinel `"1"` gives
`0`, anything else is passed to Python `int`, whose `ValueError` is the
error case. -/
def deriveCount (q : String) : Except String Int :=
  if q = ">10" then .ok 100
  else if q = "1" then .ok 0
  else
    match pyInt? q with
    | some n => .ok n
    | none => .error ("invalid literal for int() with base 10: " ++ q)

/-- One element of the stock payload for the Ozon marketplace:
`{"offer_id": ..., "stock": ...}`. -/
structure StockRecord where
  offer_id : String
  stock : Int
deriving Repr, DecidableEq

/-- The matching loop of `create_stocks` (seller.py lines 194-205): walk the
remnants; a remnant whose code is in the working offer-id list emits a record
with the derived count and removes that code from the working list.  Returns
the matched records and the depleted offer-id list. -/
def createStocksAux : List Remnant → List String → Except String (List StockRecord × List String)
  | [], ids => .ok ([], ids)
  | w :: ws, ids =>
    if w.kod ∈ ids then
      match deriveCount w.kolichestvo with
      | .error e => .error e
      | .ok c =>
        match createStocksAux ws (ids.erase w.kod) with
        | .error e => .error e
        | .ok (recs, left) => .ok (⟨w.kod, c⟩ :: recs, left)
    else createStocksAux ws ids

/-- `create_stocks` (seller.py lines 177-209) together with the state of its
`offer_ids` argument after the call: the Python function mutates the list in
place, and `main` reuses the depleted list, so the embedding returns the
stock list and the leftover offer ids. -/
def create_stocks_state (watch_remnants : List Remnant) (offer_ids : List String) :
    Except String (List StockRecord × List String) :=
  match createStocksAux watch_remnants offer_ids with
  | .error e => .error e
  | .ok (recs, left) => .ok (recs ++ left.map (fun i => ⟨i, 0⟩), left)

/-- The return value of `create_stocks` (seller.py lines 177-209): matched
records in remnant order, then a zero record for every leftover offer id. -/
def create_stocks (watch_remnants : List Remnant) (offer_ids : List String) :
    Except String (List StockRecord) :=
  (create_stocks_state watch_remnants offer_ids).map Prod.fst

/-- One element of the price payload for the Ozon marketplace
(seller.py lines 232-238). -/
structure PriceRecord where
  auto_action_enabled : String
  currency_code : String
  offer_id : String
  old_price : String
  price : String
deriving Repr, DecidableEq

/-- `create_prices` (seller.py lines 212-240): a price record for every
remnant whose code is in the offer-id list; the list is not mutated. -/
def create_prices (watch_remnants : List Remnant) (offer_ids : List String) :
    List PriceRecord :=
  match watch_remnants with
  | [] => []
  | w :: ws =>
    if w.kod ∈ offer_ids then
      ⟨"UNKNOWN", "RUB", w.kod, "0", price_conversion w.tsena⟩ :: create_prices ws offer_ids
    else create_prices ws offer_ids

/-- The loop body of `divide` for a positive chunk size `nn`:
`for i in range(0, len(lst), nn): yield lst[i:i+nn]` — the index sequence
`0, nn, 2*nn, ...` below `lst.length` has `⌈length / nn⌉` elements, and the
slice `lst[i:i+nn]` is `(lst.drop i).take nn`. -/
def pyChunks (lst : List α) (nn : Nat) : List (List α) :=
  (List.range ((lst.length + nn - 1) / nn)).map
    (fun i => (lst.drop (i * nn)).take nn)

/-- `divide` (seller.py lines 268-284): `for i in range(0, len(lst), n):
yield lst[i:i+n]`, forced to a list as every caller does.  `range` with step
`0` raises `ValueError`; with a negative step and stop `len(lst) ≥ 0` it is
empty, so no chunk is produced and no error is raised. -/
def divide (lst : List α) (n : Int) : Except String (List (List α)) :=
  if n = 0 then .error "range() arg 3 must not be zero"
  else if n < 0 then .ok []
  else .ok (pyChunks lst n.toNat)

end Seller

/-- One item of the Ozon product-list response; the pipeline reads only its
`offer_id` field (seller.py line 75). -/
structure Product where
  offer_id : String
deriving Repr, DecidableEq

/-- The fields of one Ozon product-list response that `get_offer_ids` reads:
`items`, `total` and the `last_id` cursor (seller.py lines 68-70). -/
structure ProductPage where
  items : List Product
  total : Nat
  last_id : String

/-- The `while True` loop of `get_offer_ids` (seller.py lines 66-72), with the
paginated endpoint abstracted as a function `api` from the cursor to the
response and a fuel bound on the number of requests; `none` means the loop
did not terminate within `fuel` requests. -/
def fetchLoop (api : String → ProductPage) : Nat → String → List Product → Option (List Product)
  | 0, _, _ => none
  | fuel + 1, cursor, acc =>
    let page := api cursor
    let acc2 := acc ++ page.items
    if page.total = acc2.length then some acc2
    else fetchLoop api fuel page.last_id acc2

/-- `get_offer_ids` (seller.py lines 50-76): run the pagination loop from the
empty-string cursor, then project every accumulated item to its `offer_id`. -/
def get_offer_ids (api : String → ProductPage) (fuel : Nat) : Option (List String) :=
  (fetchLoop api fuel "" []).map (fun ps => ps.map Product.offer_id)

/-- The cursor the loop of `get_offer_ids` holds before its `k`-th request:
`""` first, then the previous response's `last_id`. -/
def traceCursor (api : String → ProductPage) : Nat → String
  | 0 => ""
  | k + 1 => (api (traceCursor api k)).last_id

/-- The `product_list` accumulator of `get_offer_ids` after `k` requests. -/
def traceItems (api : String → ProductPage) : Nat → List Product
  | 0 => []
  | k + 1 => traceItems api k ++ (api (traceCursor api k)).items

/-- The update calls `seller.main` issues on one run. -/
inductive SellerCall where
  | updateStocks (batch : List Seller.StockRecord)
  | updatePrice (batch : List Seller.PriceRecord)
deriving Repr, DecidableEq

namespace Seller

/-- The sequence of update calls `seller.main` (seller.py lines 348-358)
issues on a run whose catalog fetch returned `offer_ids`: stocks are mapped
and uploaded in chunks of 100, then prices are mapped from the same — by now
depleted — offer-id list and uploaded in chunks of 900. -/
def main_calls (watch_remnants : List Remnant) (offer_ids : List String) :
    Except String (List SellerCall) :=
  match create_stocks_state watch_remnants offer_ids with
  | .error e => .error e
  | .ok (stocks, depleted) =>
    match divide stocks 100 with
    | .error e => .error e
    | .ok stockBatches =>
      match divide (create_prices watch_remnants depleted) 900 with
      | .error e => .error e
      | .ok priceBatches =>
        .ok (stockBatches.map SellerCall.updateStocks ++
             priceBatches.map SellerCall.updatePrice)

end Seller

namespace Market

/-- One element of the `items` array of a Yandex.Market stock record
(market.py lines 192-198). -/
structure StockItem where
  count : Int
  type : String
  updatedAt : String
deriving Repr, DecidableEq

/-- One element of the stock payload for Yandex.Market
(market.py lines 188-200). -/
structure StockRecord where
  sku : String
  warehouseId : String
  items : List StockItem
deriving Repr, DecidableEq

/-- The matching loop of `market.create_stocks` (market.py lines 179-201):
the same matching and count rule as the Ozon version (the count rule is
written out inline and verbatim identical in both files, so the shared
`Seller.deriveCount` embeds both), with the Yandex record shape, stamped with
the `warehouse_id` argument and the single `date` taken at entry. -/
def createStocksAux (warehouse_id date : String) :
    List Remnant → List String → Except String (List StockRecord × List String)
  | [], ids => .ok ([], ids)
  | w :: ws, ids =>
    if w.kod ∈ ids then
      match Seller.deriveCount w.kolichestvo with
      | .error e => .error e
      | .ok c =>
        match createStocksAux warehouse_id date ws (ids.erase w.kod) with
        | .error e => .error e
        | .ok (recs, left) =>
          .ok (⟨w.kod, warehouse_id, [⟨c, "FIT", date⟩]⟩ :: recs, left)
    else createStocksAux warehouse_id date ws ids

/-- `market.create_stocks` (market.py lines 156-217) together with the
depleted state of its `offer_ids` argument after the call. -/
def create_stocks_state (watch_remnants : List Remnant) (offer_ids : List String)
    (warehouse_id date : String) :
    Except String (List StockRecord × List String) :=
  match createStocksAux warehouse_id date watch_remnants offer_ids with
  | .error e => .error e
  | .ok (recs, left) =>
    .ok (recs ++ left.map (fun i => ⟨i, warehouse_id, [⟨0, "FIT", date⟩]⟩), left)

/-- The return value of `market.create_stocks` (market.py lines 156-217). -/
def create_stocks (watch_remnants : List Remnant) (offer_ids : List String)
    (warehouse_id date : String) : Except String (List StockRecord) :=
  (create_stocks_state watch_remnants offer_ids warehouse_id date).map Prod.fst

/-- The `price` object of a Yandex.Market price record
(market.py lines 251-256). -/
structure PriceValue where
  value : Int
  currencyId : String
deriving Repr, DecidableEq

/-- One element of the price payload for Yandex.Market
(market.py lines 248-259). -/
structure PriceRecord where
  id : String
  price : PriceValue
deriving Repr, DecidableEq

/-- `market.create_prices` (market.py lines 220-261): a price record for
every remnant whose code is in the offer-id list, whose value is
`int(price_conversion(...))`; the `int` call raises on a digit-free
normalized string, which is the error case. -/
def create_prices : List Remnant → List String → Except String (List PriceRecord)
  | [], _ => .ok []
  | w :: ws, offer_ids =>
    if w.kod ∈ offer_ids then
      match pyInt? (Seller.price_conversion w.tsena) with
      | none =>
        .error ("invalid literal for int() with base 10: " ++
          Seller.price_conversion w.tsena)
      | some v =>
        match create_prices ws offer_ids with
        | .error e => .error e
        | .ok ps => .ok (⟨w.kod, ⟨v, "RUR"⟩⟩ :: ps)
    else create_prices ws offer_ids

end Market

/-- The update calls `market.main` issues on one run. -/
inductive MarketCall where
  | updateStocks (campaign : String) (batch : List Market.StockRecord)
  | updatePrice (campaign : String) (batch : List Market.PriceRecord)
deriving Repr, DecidableEq

namespace Market

/-- The sequence of update calls `market.main` (market.py lines 334-351)
issues on a run whose two catalog fetches returned `offer_ids_fbs` and
`offer_ids_dbs`: per campaign, stocks are mapped and uploaded in chunks of
2000.  `upload_prices` is an `async def` and `main` invokes it at lines 342
and 351 without `await` (and no event loop ever runs the returned coroutine),
so its body — price mapping and the chunked `update_price` calls — never
executes: each campaign contributes only its stock-update calls. -/
def main_calls (watch_remnants : List Remnant)
    (campaign_fbs_id campaign_dbs_id : String)
    (offer_ids_fbs offer_ids_dbs : List String)
    (warehouse_fbs_id warehouse_dbs_id : String)
    (date_fbs date_dbs : String) :
    Except String (List MarketCall) :=
  match create_stocks_state watch_remnants offer_ids_fbs warehouse_fbs_id date_fbs with
  | .error e => .error e
  | .ok (stocks_fbs, _) =>
    match Seller.divide stocks_fbs 2000 with
    | .error e => .error e
    | .ok fbsBatches =>
      match create_stocks_state watch_remnants offer_ids_dbs warehouse_dbs_id date_dbs with
      | .error e => .error e
      | .ok (stocks_dbs, _) =>
        match Seller.divide stocks_dbs 2000 with
        | .error e => .error e
        | .ok dbsBatches =>
          .ok (fbsBatches.map (MarketCall.updateStocks campaign_fbs_id) ++
               dbsBatches.map (MarketCall.updateStocks campaign_dbs_id))

end Market

/-- Structure of a successful run of the matching loop of
`seller.create_stocks`, for a duplicate-free working offer-id list: the
leftover list is a sublist of the input; every matched record's id is an
input id and its count derives from a matching remnant; matched ids are
pairwise distinct; every input id is matched or leftover; and no leftover id
is the code of any remnant. -/
theorem Seller.createStocksAux_spec :
    ∀ (ws : List Remnant) (ids : List String), ids.Nodup →
      ∀ recs left, Seller.createStocksAux ws ids = .ok (recs, left) →
        left.Sublist ids ∧
        (∀ r ∈ recs, r.offer_id ∈ ids ∧
          ∃ w ∈ ws, w.kod = r.offer_id ∧ Seller.deriveCount w.kolichestvo = .ok r.stock) ∧
        (recs.map Seller.StockRecord.offer_id).Nodup ∧
        (∀ id ∈ ids, id ∈ left ∨ id ∈ recs.map Seller.StockRecord.offer_id) ∧
        (∀ w ∈ ws, w.kod ∉ left) := by
  intro ws
  induction ws with
  | nil =>
    intro ids hnd recs left h
    simp only [Seller.createStocksAux, Except.ok.injEq, Prod.mk.injEq] at h
    obtain ⟨h1, h2⟩ := h
    subst h1; subst h2
    refine ⟨List.Sublist.refl _, by simp, by simp, fun id hid => Or.inl hid, by simp⟩
  | cons w ws ih =>
    intro ids hnd recs left h
    simp only [Seller.createStocksAux] at h
    by_cases hm : w.kod ∈ ids
    · rw [if_pos hm] at h
      cases hd : Seller.deriveCount w.kolichestvo with
      | error e => rw [hd] at h; cases h
      | ok c =>
        rw [hd] at h
        cases hrec : Seller.createStocksAux ws (ids.erase w.kod) with
        | error e => rw [hrec] at h; cases h
        | ok p =>
          obtain ⟨recs', left'⟩ := p
          rw [hrec] at h
          simp only [Except.ok.injEq, Prod.mk.injEq] at h
          obtain ⟨h1, h2⟩ := h
          subst h1; subst h2
          obtain ⟨hsub, hrmem, hrnd, hcov, hunm⟩ :=
            ih (ids.erase w.kod) (hnd.erase _) recs' left' hrec
          have hleft_sub : left'.Sublist ids := hsub.trans (List.erase_sublist _ _)
          have hkod_not_erase : w.kod ∉ ids.erase w.kod := hnd.not_mem_erase
          refine ⟨hleft_sub, ?_, ?_, ?_, ?_⟩
          · intro r hr
            rcases List.mem_cons.mp hr with hr | hr
            · subst hr
              exact ⟨hm, w, List.mem_cons_self _ _, rfl, hd⟩
            · obtain ⟨hrin, w', hw', hkw', hdw'⟩ := hrmem r hr
              exact ⟨List.mem_of_mem_erase hrin,
                w', List.mem_cons_of_mem _ hw', hkw', hdw'⟩
          · simp only [List.map_cons, List.nodup_cons]
            refine ⟨?_, hrnd⟩
            intro hmem
            obtain ⟨r, hr, hre⟩ := List.mem_map.mp hmem
            have := (hrmem r hr).1
            rw [hre] at this
            exact hkod_not_erase this
          · intro id hid
            by_cases hidw : id = w.kod
            · subst hidw
              exact Or.inr (by simp)
            · have hid' : id ∈ ids.erase w.kod := (List.mem_erase_of_ne hidw).mpr hid
              rcases hcov id hid' with hl | hrm
              · exact Or.inl hl
              · exact Or.inr (by simp [hrm])
          · intro w' hw'
            rcases List.mem_cons.mp hw' with hw' | hw'
            · subst hw'
              intro hcontra
              exact hkod_not_erase (hsub.subset hcontra)
            · exact hunm w' hw'
    · rw [if_neg hm] at h
      obtain ⟨hsub, hrmem, hrnd, hcov, hunm⟩ := ih ids hnd recs left h
      refine ⟨hsub, ?_, hrnd, hcov, ?_⟩
      · intro r hr
        obtain ⟨hrin, w', hw', hkw', hdw'⟩ := hrmem r hr
        exact ⟨hrin, w', List.mem_cons_of_mem _ hw', hkw', hdw'⟩
      · intro w' hw'
        rcases List.mem_cons.mp hw' with hw' | hw'
        · subst hw'
          intro hcontra
          exact hm (hsub.subset hcontra)
        · exact hunm w' hw'

/-- The Yandex matching loop is the Ozon matching loop with each matched
record reshaped to the Yandex wire format. -/
theorem Market.createStocksAux_eq (wh d : String) :
    ∀ (ws : List Remnant) (ids : List String),
      Market.createStocksAux wh d ws ids =
        (Seller.createStocksAux ws ids).map
          (fun p => (p.1.map (fun r => ⟨r.offer_id, wh, [⟨r.stock, "FIT", d⟩]⟩), p.2)) := by
  intro ws
  induction ws with
  | nil => intro ids; rfl
  | cons w ws ih =>
    intro ids
    simp only [Market.createStocksAux, Seller.createStocksAux]
    by_cases hm : w.kod ∈ ids
    · rw [if_pos hm, if_pos hm]
      cases hd : Seller.deriveCount w.kolichestvo with
      | error e => rfl
      | ok c =>
        rw [ih (ids.erase w.kod)]
        cases hrec : Seller.createStocksAux ws (ids.erase w.kod) with
        | error e => rfl
        | ok p => rfl
    · rw [if_neg hm, if_neg hm]
      exact ih ids

/-- `market.create_stocks_state` is `seller.create_stocks_state` with each
stock record reshaped to the Yandex wire format; in particular both deplete
the offer-id list identically. -/
theorem Market.create_stocks_state_eq (ws : List Remnant) (ids : List String) (wh d : String) :
    Market.create_stocks_state ws ids wh d =
      (Seller.create_stocks_state ws ids).map
        (fun p => (p.1.map (fun r => ⟨r.offer_id, wh, [⟨r.stock, "FIT", d⟩]⟩), p.2)) := by
  simp only [Market.create_stocks_state, Seller.create_stocks_state,
    Market.createStocksAux_eq wh d ws ids]
  cases hrec : Seller.createStocksAux ws ids with
  | error e => rfl
  | ok p =>
    obtain ⟨recs, left⟩ := p
    simp [Except.map, List.map_append, List.map_map, Function.comp]

/-- `market.create_stocks` is `seller.create_stocks` reshaped. -/
theorem Market.create_stocks_eq (ws : List Remnant) (ids : List String) (wh d : String) :
    Market.create_stocks ws ids wh d =
      (Seller.create_stocks ws ids).map
        (List.map (fun r => ⟨r.offer_id, wh, [⟨r.stock, "FIT", d⟩]⟩)) := by
  simp only [Market.create_stocks, Seller.create_stocks,
    Market.create_stocks_state_eq ws ids wh d]
  cases hrec : Seller.create_stocks_state ws ids with
  | error e => rfl
  | ok p => rfl

/-- Full structure of a successful `seller.create_stocks` call on a
duplicate-free offer-id list. -/
theorem Seller.create_stocks_spec (ws : List Remnant) (ids : List String)
    (hnd : ids.Nodup) (stocks : List Seller.StockRecord)
    (hok : Seller.create_stocks ws ids = .ok stocks) :
    (∀ id ∈ ids, stocks.countP (fun r => r.offer_id == id) = 1) ∧
    (∀ r ∈ stocks, r.offer_id ∈ ids) ∧
    (∀ r ∈ stocks,
      ((∃ w ∈ ws, w.kod = r.offer_id) →
        ∃ w ∈ ws, w.kod = r.offer_id ∧ Seller.deriveCount w.kolichestvo = .ok r.stock) ∧
      ((∀ w ∈ ws, w.kod ≠ r.offer_id) → r.stock = 0)) := by
  simp only [Seller.create_stocks, Seller.create_stocks_state] at hok
  cases haux : Seller.createStocksAux ws ids with
  | error e => rw [haux] at hok; cases hok
  | ok p =>
    obtain ⟨recs, left⟩ := p
    rw [haux] at hok
    simp only [Except.map, Except.ok.injEq] at hok
    subst hok
    obtain ⟨hsub, hrmem, hrnd, hcov, hunm⟩ :=
      Seller.createStocksAux_spec ws ids hnd recs left haux
    have hzero_map :
        (left.map (fun i => (⟨i, 0⟩ : Seller.StockRecord))).map
          Seller.StockRecord.offer_id = left := by
      rw [List.map_map]; exact List.map_id left
    have hstocks_map :
        (recs ++ left.map (fun i => (⟨i, 0⟩ : Seller.StockRecord))).map
          Seller.StockRecord.offer_id = recs.map Seller.StockRecord.offer_id ++ left := by
      rw [List.map_append, hzero_map]
    have hleft_nd : left.Nodup := List.Nodup.sublist hsub hnd
    have hdisj : (recs.map Seller.StockRecord.offer_id).Disjoint left := by
      intro a ha hal
      obtain ⟨r, hr, hre⟩ := List.mem_map.mp ha
      obtain ⟨_, w, hw, hkw, _⟩ := hrmem r hr
      exact hunm w hw (by rw [hkw, hre]; exact hal)
    have hmap_nd :
        ((recs ++ left.map (fun i => (⟨i, 0⟩ : Seller.StockRecord))).map
          Seller.StockRecord.offer_id).Nodup := by
      rw [hstocks_map]
      exact List.nodup_append.mpr ⟨hrnd, hleft_nd, hdisj⟩
    refine ⟨?_, ?_, ?_⟩
    · intro id hid
      have hmem : id ∈ (recs ++ left.map (fun i => (⟨i, 0⟩ : Seller.StockRecord))).map
          Seller.StockRecord.offer_id := by
        rw [hstocks_map]
        rcases hcov id hid with hl | hr
        · exact List.mem_append_right _ hl
        · exact List.mem_append_left _ hr
      calc (recs ++ left.map (fun i => (⟨i, 0⟩ : Seller.StockRecord))).countP
              (fun r => r.offer_id == id)
          = ((recs ++ left.map (fun i => (⟨i, 0⟩ : Seller.StockRecord))).map
              Seller.StockRecord.offer_id).countP (· == id) :=
            (List.countP_map (· == id) Seller.StockRecord.offer_id
              (recs ++ left.map (fun i => (⟨i, 0⟩ : Seller.StockRecord)))).symm
        _ = 1 := List.count_eq_one_of_mem hmap_nd hmem
    · intro r hr
      rcases List.mem_append.mp hr with hr | hr
      · exact (hrmem r hr).1
      · obtain ⟨i, hi, hie⟩ := List.mem_map.mp hr
        rw [← hie]
        exact hsub.subset hi
    · intro r hr
      rcases List.mem_append.mp hr with hr | hr
      · obtain ⟨_, w, hw, hkw, hdw⟩ := hrmem r hr
        constructor
        · intro _
          exact ⟨w, hw, hkw, hdw⟩
        · intro hnone
          exact absurd hkw (hnone w hw)
      · obtain ⟨i, hi, hie⟩ := List.mem_map.mp hr
        constructor
        · intro hmatch
          obtain ⟨w, hw, hkw⟩ := hmatch
          exact absurd (by rw [hkw, ← hie]; exact hi) (hunm w hw)
        · intro _
          rw [← hie]

/-- C1: for every remnant list and every duplicate-free offer-id list, a
successful `create_stocks` (both marketplaces) returns exactly one stock
record per input offer id — with a count derived from a matching remnant when
one exists, and count `0` otherwise — and returns no record for a code
outside the offer-id list. -/
theorem c1_stock_list_one_record_per_offer_id
    (ws : List Remnant) (ids : List String) (hnd : ids.Nodup) :
    (∀ stocks, Seller.create_stocks ws ids = .ok stocks →
      (∀ id ∈ ids, stocks.countP (fun r => r.offer_id == id) = 1) ∧
      (∀ r ∈ stocks, r.offer_id ∈ ids) ∧
      (∀ r ∈ stocks,
        ((∃ w ∈ ws, w.kod = r.offer_id) →
          ∃ w ∈ ws, w.kod = r.offer_id ∧ Seller.deriveCount w.kolichestvo = .ok r.stock) ∧
        ((∀ w ∈ ws, w.kod ≠ r.offer_id) → r.stock = 0))) ∧
    (∀ wh d stocks, Market.create_stocks ws ids wh d = .ok stocks →
      (∀ id ∈ ids, stocks.countP (fun r => r.sku == id) = 1) ∧
      (∀ r ∈ stocks, r.sku ∈ ids) ∧
      (∀ r ∈ stocks,
        ((∃ w ∈ ws, w.kod = r.sku) →
          ∃ w ∈ ws, w.kod = r.sku ∧ ∃ c, Seller.deriveCount w.kolichestvo = .ok c ∧
            r.items = [⟨c, "FIT", d⟩]) ∧
        ((∀ w ∈ ws, w.kod ≠ r.sku) → r.items = [⟨0, "FIT", d⟩]))) := by
  constructor
  · intro stocks hok
    exact Seller.create_stocks_spec ws ids hnd stocks hok
  · intro wh d stocks hok
    rw [Market.create_stocks_eq] at hok
    cases hsell : Seller.create_stocks ws ids with
    | error e => rw [hsell] at hok; cases hok
    | ok sstocks =>
      rw [hsell] at hok
      simp only [Except.map, Except.ok.injEq] at hok
      subst hok
      obtain ⟨hcount, hmem, hrule⟩ := Seller.create_stocks_spec ws ids hnd sstocks hsell
      refine ⟨?_, ?_, ?_⟩
      · intro id hid
        have := List.countP_map (fun r : Market.StockRecord => r.sku == id)
          (fun r : Seller.StockRecord =>
            (⟨r.offer_id, wh, [⟨r.stock, "FIT", d⟩]⟩ : Market.StockRecord)) sstocks
        rw [this]
        exact hcount id hid
      · intro r hr
        obtain ⟨r', hr', hre⟩ := List.mem_map.mp hr
        rw [← hre]
        exact hmem r' hr'
      · intro r hr
        obtain ⟨r', hr', hre⟩ := List.mem_map.mp hr
        obtain ⟨hmatched, hunmatched⟩ := hrule r' hr'
        subst hre
        constructor
        · intro hex
          obtain ⟨w, hw, hkw, hdw⟩ := hmatched hex
          exact ⟨w, hw, hkw, r'.stock, hdw, rfl⟩
        · intro hnone
          have := hunmatched hnone
          simp [this]

/-- Witness for C1 at the docstring example `{"Код": "A", "Количество": ">10"}`
against offer ids `["A", "B"]`. -/
theorem c1_witness :
    Seller.create_stocks [⟨"A", ">10", "p"⟩] ["A", "B"] =
      .ok [⟨"A", 100⟩, ⟨"B", 0⟩] ∧
    (∀ id ∈ ["A", "B"],
      ([(⟨"A", 100⟩ : Seller.StockRecord), ⟨"B", 0⟩].countP
        (fun r => r.offer_id == id)) = 1) :=
  ⟨rfl,
    ((c1_stock_list_one_record_per_offer_id [⟨"A", ">10", "p"⟩] ["A", "B"]
      (by decide)).1 [⟨"A", 100⟩, ⟨"B", 0⟩] rfl).1⟩

/-- C2: for a remnant whose code is in the working offer-id set, the stock
count is `100` for quantity `">10"`, `0` for quantity `"1"`, Python
`int(quantity)` otherwise, and a non-sentinel non-numeric quantity makes
`create_stocks` (both marketplaces) fail with the `int()` data error instead
of returning a list. -/
theorem c2_stock_count_sentinels_and_parse
    (w : Remnant) (ids : List String) (hmem : w.kod ∈ ids) :
    (w.kolichestvo = ">10" →
      Seller.create_stocks [w] ids =
        .ok (⟨w.kod, 100⟩ :: (ids.erase w.kod).map (fun i => ⟨i, 0⟩))) ∧
    (w.kolichestvo = "1" →
      Seller.create_stocks [w] ids =
        .ok (⟨w.kod, 0⟩ :: (ids.erase w.kod).map (fun i => ⟨i, 0⟩))) ∧
    (∀ n, w.kolichestvo ≠ ">10" → w.kolichestvo ≠ "1" →
      pyInt? w.kolichestvo = some n →
      Seller.create_stocks [w] ids =
        .ok (⟨w.kod, n⟩ :: (ids.erase w.kod).map (fun i => ⟨i, 0⟩))) ∧
    (w.kolichestvo ≠ ">10" → w.kolichestvo ≠ "1" →
      pyInt? w.kolichestvo = none →
      Seller.create_stocks [w] ids =
        .error ("invalid literal for int() with base 10: " ++ w.kolichestvo) ∧
      ∀ wh d, Market.create_stocks [w] ids wh d =
        .error ("invalid literal for int() with base 10: " ++ w.kolichestvo)) := by
  refine ⟨?_, ?_, ?_, ?_⟩
  · intro hq
    have hd : Seller.deriveCount w.kolichestvo = .ok 100 := by
      simp [Seller.deriveCount, hq]
    simp [Seller.create_stocks, Seller.create_stocks_state, Seller.createStocksAux,
      hmem, hd, Except.map]
  · intro hq
    have hd : Seller.deriveCount w.kolichestvo = .ok 0 := by
      simp [Seller.deriveCount, hq]
    simp [Seller.create_stocks, Seller.create_stocks_state, Seller.createStocksAux,
      hmem, hd, Except.map]
  · intro n hq1 hq2 hp
    have hd : Seller.deriveCount w.kolichestvo = .ok n := by
      simp [Seller.deriveCount, hq1, hq2, hp]
    simp [Seller.create_stocks, Seller.create_stocks_state, Seller.createStocksAux,
      hmem, hd, Except.map]
  · intro hq1 hq2 hp
    have hd : Seller.deriveCount w.kolichestvo =
        .error ("invalid literal for int() with base 10: " ++ w.kolichestvo) := by
      simp [Seller.deriveCount, hq1, hq2, hp]
    constructor
    · simp [Seller.create_stocks, Seller.create_stocks_state, Seller.createStocksAux,
        hmem, hd, Except.map]
    · intro wh d
      rw [Market.create_stocks_eq]
      have : Seller.create_stocks [w] ids =
          .error ("invalid literal for int() with base 10: " ++ w.kolichestvo) := by
        simp [Seller.create_stocks, Seller.create_stocks_state, Seller.createStocksAux,
          hmem, hd, Except.map]
      rw [this]
      rfl

/-- Witness for C2: quantity `"7"` parses to count `7`, quantity `"x"` makes
the call fail. -/
theorem c2_witness :
    Seller.create_stocks [⟨"A", "7", "p"⟩] ["A"] = .ok [⟨"A", 7⟩] ∧
    Seller.create_stocks [⟨"B", "x", "p"⟩] ["B"] =
      .error ("invalid literal for int() with base 10: x") := by
  constructor
  · have := (c2_stock_count_sentinels_and_parse ⟨"A", "7", "p"⟩ ["A"]
      (by decide)).2.2.1 7 (by decide) (by decide) (by decide)
    simpa using this
  · have := ((c2_stock_count_sentinels_and_parse ⟨"B", "x", "p"⟩ ["B"]
      (by decide)).2.2.2 (by decide) (by decide) (by decide)).1
    simpa using this

/-- Every remnant matched by the offer-id list yields an Ozon price record
built from the normalized price string. -/
theorem Seller.create_prices_emits :
    ∀ (ws : List Remnant) (ids : List String) (w : Remnant), w ∈ ws → w.kod ∈ ids →
      ∃ r ∈ Seller.create_prices ws ids,
        r.offer_id = w.kod ∧ r.price = Seller.price_conversion w.tsena := by
  intro ws
  induction ws with
  | nil => intro ids w hw; cases hw
  | cons w' ws ih =>
    intro ids w hw hmem
    rcases List.mem_cons.mp hw with hw | hw
    · subst hw
      rw [Seller.create_prices, if_pos hmem]
      exact ⟨⟨"UNKNOWN", "RUB", w.kod, "0", Seller.price_conversion w.tsena⟩,
        List.mem_cons_self _ _, rfl, rfl⟩
    · obtain ⟨r, hr, hre⟩ := ih ids w hw hmem
      rw [Seller.create_prices]
      by_cases hm' : w'.kod ∈ ids
      · rw [if_pos hm']
        exact ⟨r, List.mem_cons_of_mem _ hr, hre⟩
      · rw [if_neg hm']
        exact ⟨r, hr, hre⟩

/-- Every remnant matched by the offer-id list yields a Yandex price record
whose value is the parse of the normalized price string, whenever
`market.create_prices` succeeds. -/
theorem Market.create_prices_ok_emits :
    ∀ (ws : List Remnant) (ids : List String) (w : Remnant), w ∈ ws → w.kod ∈ ids →
      ∀ res, Market.create_prices ws ids = .ok res →
        ∃ r ∈ res, r.id = w.kod ∧
          pyInt? (Seller.price_conversion w.tsena) = some r.price.value := by
  intro ws
  induction ws with
  | nil => intro ids w hw; cases hw
  | cons w' ws ih =>
    intro ids w hw hmem res h
    rw [Market.create_prices] at h
    rcases List.mem_cons.mp hw with hw | hw
    · subst hw
      rw [if_pos hmem] at h
      cases hp : pyInt? (Seller.price_conversion w.tsena) with
      | none => rw [hp] at h; cases h
      | some v =>
        rw [hp] at h
        cases hrec : Market.create_prices ws ids with
        | error e => rw [hrec] at h; cases h
        | ok ps =>
          rw [hrec] at h
          simp only [Except.ok.injEq] at h
          subst h
          exact ⟨⟨w.kod, ⟨v, "RUR"⟩⟩, List.mem_cons_self _ _, rfl, rfl⟩
    · by_cases hm' : w'.kod ∈ ids
      · rw [if_pos hm'] at h
        cases hp : pyInt? (Seller.price_conversion w'.tsena) with
        | none => rw [hp] at h; cases h
        | some v =>
          rw [hp] at h
          cases hrec : Market.create_prices ws ids with
          | error e => rw [hrec] at h; cases h
          | ok ps =>
            rw [hrec] at h
            simp only [Except.ok.injEq] at h
            subst h
            obtain ⟨r, hr, hre⟩ := ih ids w hw hmem ps hrec
            exact ⟨r, List.mem_cons_of_mem _ hr, hre⟩
      · rw [if_neg hm'] at h
        exact ih ids w hw hmem res h

/-- Every Ozon price record comes from a remnant whose code is in the
offer-id list. -/
theorem Seller.create_prices_sound :
    ∀ (ws : List Remnant) (ids : List String),
      ∀ r ∈ Seller.create_prices ws ids,
        r.offer_id ∈ ids ∧ ∃ w ∈ ws, w.kod = r.offer_id := by
  intro ws
  induction ws with
  | nil => intro ids r hr; cases hr
  | cons w' ws ih =>
    intro ids r hr
    rw [Seller.create_prices] at hr
    by_cases hm' : w'.kod ∈ ids
    · rw [if_pos hm'] at hr
      rcases List.mem_cons.mp hr with hr | hr
      · subst hr
        exact ⟨hm', w', List.mem_cons_self _ _, rfl⟩
      · obtain ⟨hin, w, hw, hkw⟩ := ih ids r hr
        exact ⟨hin, w, List.mem_cons_of_mem _ hw, hkw⟩
    · rw [if_neg hm'] at hr
      obtain ⟨hin, w, hw, hkw⟩ := ih ids r hr
      exact ⟨hin, w, List.mem_cons_of_mem _ hw, hkw⟩

/-- Every Yandex price record comes from a remnant whose code is in the
offer-id list. -/
theorem Market.create_prices_ok_sound :
    ∀ (ws : List Remnant) (ids : List String) (res : List Market.PriceRecord),
      Market.create_prices ws ids = .ok res →
      ∀ r ∈ res, r.id ∈ ids ∧ ∃ w ∈ ws, w.kod = r.id := by
  intro ws
  induction ws with
  | nil =>
    intro ids res h r hr
    rw [Market.create_prices] at h
    simp only [Except.ok.injEq] at h
    subst h
    cases hr
  | cons w' ws ih =>
    intro ids res h r hr
    rw [Market.create_prices] at h
    by_cases hm' : w'.kod ∈ ids
    · rw [if_pos hm'] at h
      cases hp : pyInt? (Seller.price_conversion w'.tsena) with
      | none => rw [hp] at h; cases h
      | some v =>
        rw [hp] at h
        cases hrec : Market.create_prices ws ids with
        | error e => rw [hrec] at h; cases h
        | ok ps =>
          rw [hrec] at h
          simp only [Except.ok.injEq] at h
          subst h
          rcases List.mem_cons.mp hr with hr | hr
          · subst hr
            exact ⟨hm', w', List.mem_cons_self _ _, rfl⟩
          · obtain ⟨hin, w, hw, hkw⟩ := ih ids ps hrec r hr
            exact ⟨hin, w, List.mem_cons_of_mem _ hw, hkw⟩
    · rw [if_neg hm'] at h
      obtain ⟨hin, w, hw, hkw⟩ := ih ids res h r hr
      exact ⟨hin, w, List.mem_cons_of_mem _ hw, hkw⟩

/-- C3: for every remnant whose code is in the supplied offer-id set, price
mapping emits a record whose price derives from the Price Normalizer applied
to the remnant's price string — kept as the normalized string by the Ozon
mapper and parsed to an integer by the Yandex mapper. -/
theorem c3_price_record_from_normalizer
    (ws : List Remnant) (ids : List String) (w : Remnant)
    (hw : w ∈ ws) (hmem : w.kod ∈ ids) :
    (∃ r ∈ Seller.create_prices ws ids,
      r.offer_id = w.kod ∧ r.price = Seller.price_conversion w.tsena) ∧
    (∀ res, Market.create_prices ws ids = .ok res →
      ∃ r ∈ res, r.id = w.kod ∧
        pyInt? (Seller.price_conversion w.tsena) = some r.price.value) :=
  ⟨Seller.create_prices_emits ws ids w hw hmem,
   fun res h => Market.create_prices_ok_emits ws ids w hw hmem res h⟩

/-- Witness for C3 at the docstring example `{"Код": "123", "Цена": "5990"}`
with offer ids `["123", "789"]`. -/
theorem c3_witness :
    (∃ r ∈ Seller.create_prices [⟨"123", "5", "5990"⟩] ["123", "789"],
      r.offer_id = "123" ∧ r.price = Seller.price_conversion ("5990")) ∧
    (∀ res, Market.create_prices [⟨"123", "5", "5990"⟩] ["123", "789"] = .ok res →
      ∃ r ∈ res, r.id = "123" ∧
        pyInt? (Seller.price_conversion ("5990")) = some r.price.value) :=
  c3_price_record_from_normalizer [⟨"123", "5", "5990"⟩] ["123", "789"]
    ⟨"123", "5", "5990"⟩ (by decide) (by decide)

/-- C4: every record of the price output (both marketplaces) corresponds to a
remnant whose code is in the offer-id list, and an offer id with no matching
remnant never appears in the price output. -/
theorem c4_price_output_only_matched_offers (ws : List Remnant) (ids : List String) :
    (∀ r ∈ Seller.create_prices ws ids,
      r.offer_id ∈ ids ∧ ∃ w ∈ ws, w.kod = r.offer_id) ∧
    (∀ res, Market.create_prices ws ids = .ok res →
      ∀ r ∈ res, r.id ∈ ids ∧ ∃ w ∈ ws, w.kod = r.id) ∧
    (∀ id ∈ ids, (∀ w ∈ ws, w.kod ≠ id) →
      (∀ r ∈ Seller.create_prices ws ids, r.offer_id ≠ id) ∧
      (∀ res, Market.create_prices ws ids = .ok res → ∀ r ∈ res, r.id ≠ id)) := by
  refine ⟨Seller.create_prices_sound ws ids,
    fun res h => Market.create_prices_ok_sound ws ids res h, ?_⟩
  intro id _ hnone
  constructor
  · intro r hr hre
    obtain ⟨_, w, hw, hkw⟩ := Seller.create_prices_sound ws ids r hr
    exact hnone w hw (by rw [hkw, hre])
  · intro res h r hr hre
    obtain ⟨_, w, hw, hkw⟩ := Market.create_prices_ok_sound ws ids res h r hr
    exact hnone w hw (by rw [hkw, hre])

/-- Witness for C4: remnant `"A"`, offer ids `["A", "B"]` — the only output
record is for `"A"`, and the unmatched id `"B"` never appears. -/
theorem c4_witness :
    (∀ r ∈ Seller.create_prices [⟨"A", "5", "90"⟩] ["A", "B"],
      r.offer_id ∈ ["A", "B"] ∧ ∃ w ∈ [(⟨"A", "5", "90"⟩ : Remnant)], w.kod = r.offer_id) ∧
    (∀ r ∈ Seller.create_prices [⟨"A", "5", "90"⟩] ["A", "B"], r.offer_id ≠ "B") :=
  ⟨(c4_price_output_only_matched_offers [⟨"A", "5", "90"⟩] ["A", "B"]).1,
   ((c4_price_output_only_matched_offers [⟨"A", "5", "90"⟩] ["A", "B"]).2.2
     "B" (by decide) (by decide)).1⟩

/-- If no remnant's code is in the offer-id list, the Ozon price mapper
returns the empty list. -/
theorem Seller.create_prices_empty_of_no_match :
    ∀ (ws : List Remnant) (ids : List String),
      (∀ w ∈ ws, w.kod ∉ ids) → Seller.create_prices ws ids = [] := by
  intro ws
  induction ws with
  | nil => intro ids _; rfl
  | cons w' ws ih =>
    intro ids hnone
    rw [Seller.create_prices, if_neg (hnone w' (List.mem_cons_self _ _))]
    exact ih ids (fun w hw => hnone w (List.mem_cons_of_mem _ hw))

/-- C10 (amended: the fetched offer-id list must be duplicate-free, as the
counterexample `c10_counterexample` forces): when `seller.main` runs
`create_stocks` first on a duplicate-free offer-id list and then
`create_prices` on the same depleted list, the price phase gets the empty
list — every remnant code still present would have been matched and removed
by the stock phase. -/
theorem c10_prices_empty_after_stock_depletion
    (ws : List Remnant) (ids : List String) (hnd : ids.Nodup)
    (stocks : List Seller.StockRecord) (depleted : List String)
    (hok : Seller.create_stocks_state ws ids = .ok (stocks, depleted)) :
    Seller.create_prices ws depleted = [] := by
  simp only [Seller.create_stocks_state] at hok
  cases haux : Seller.createStocksAux ws ids with
  | error e => rw [haux] at hok; cases hok
  | ok p =>
    obtain ⟨recs, left⟩ := p
    rw [haux] at hok
    simp only [Except.ok.injEq, Prod.mk.injEq] at hok
    obtain ⟨_, hleft⟩ := hok
    subst hleft
    obtain ⟨_, _, _, _, hunm⟩ := Seller.createStocksAux_spec ws ids hnd recs left haux
    exact Seller.create_prices_empty_of_no_match ws left hunm

/-- Witness for C10: after depleting `["X", "Y"]` with remnant `"X"`, the
price phase yields no record. -/
theorem c10_witness :
    Seller.create_stocks_state [⟨"X", "5", "1500"⟩] ["X", "Y"] =
      .ok ([⟨"X", 5⟩, ⟨"Y", 0⟩], ["Y"]) ∧
    Seller.create_prices [⟨"X", "5", "1500"⟩] ["Y"] = [] :=
  ⟨rfl,
   c10_prices_empty_after_stock_depletion [⟨"X", "5", "1500"⟩] ["X", "Y"]
     (by decide) [⟨"X", 5⟩, ⟨"Y", 0⟩] ["Y"] rfl⟩

/-- Counterexample to C10 as stated (quantified over every offer-id list):
with the duplicated offer-id list `["A", "A"]`, `create_stocks` removes only
one occurrence of the matched id `"A"`, so the subsequent `create_prices` on
the depleted list still emits a record and is not empty. -/
theorem c10_counterexample :
    Seller.create_stocks_state [⟨"A", "5", "100"⟩] ["A", "A"] =
      .ok ([⟨"A", 5⟩, ⟨"A", 0⟩], ["A"]) ∧
    Seller.create_prices [⟨"A", "5", "100"⟩] ["A"] =
      [⟨"UNKNOWN", "RUB", "A", "0", "100"⟩] :=
  ⟨rfl, rfl⟩

/-- C5: `price_conversion` truncates its input at the first `.` and deletes
every character that is not an ASCII digit (`'0'`–`'9'`), and in particular
maps `"5'990.00 руб."` to `"5990"`, `"12.34$"` to `"12"`, `"1.999"` to `"1"`
and `"abc"` to `""`. -/
theorem c5_price_conversion_contract :
    (∀ s : String, Seller.price_conversion s =
      String.mk ((s.data.takeWhile (fun c => c ≠ '.')).filter
        (fun c => decide ('0' ≤ c) && decide (c ≤ '9')))) ∧
    Seller.price_conversion ("5\x27990.00 руб.") = "5990" ∧
    Seller.price_conversion ("12.34$") = "12" ∧
    Seller.price_conversion ("1.999") = "1" ∧
    Seller.price_conversion ("abc") = "" := by
  have hdig : ∀ c : Char, Char.isDigit c = (decide ('0' ≤ c) && decide (c ≤ '9')) := by
    intro c
    simp [Char.isDigit, Char.le_def]
  refine ⟨?_, rfl, rfl, rfl, rfl⟩
  intro s
  unfold Seller.price_conversion
  rw [List.filter_congr (fun c _ => hdig c)]

/-- The empty list yields no chunks. -/
theorem Seller.pyChunks_nil (nn : Nat) : Seller.pyChunks ([] : List α) nn = [] := by
  unfold Seller.pyChunks
  have h : (List.length ([] : List α) + nn - 1) / nn = 0 := by
    simp only [List.length_nil, Nat.zero_add]
    rcases Nat.eq_zero_or_pos nn with h | h
    · subst h; rfl
    · exact Nat.div_eq_of_lt (by omega)
  rw [h]
  rfl

/-- For a positive chunk size, the index-based chunking of `divide` peels off
the first `nn` elements and recurses on the rest. -/
theorem Seller.pyChunks_cons (lst : List α) (nn : Nat) (hn : 0 < nn) (hne : lst ≠ []) :
    Seller.pyChunks lst nn = lst.take nn :: Seller.pyChunks (lst.drop nn) nn := by
  unfold Seller.pyChunks
  have hL : 0 < lst.length := List.length_pos.mpr hne
  have hlen : (lst.drop nn).length = lst.length - nn := List.length_drop nn lst
  have hcount : (lst.length + nn - 1) / nn = ((lst.drop nn).length + nn - 1) / nn + 1 := by
    rw [hlen]
    have h1 : lst.length + nn - 1 = (lst.length - 1) + nn := by omega
    rw [h1, Nat.add_div_right _ hn]
    rcases le_or_lt lst.length nn with hle | hlt
    · have h2 : lst.length - nn = 0 := by omega
      rw [h2]
      have h3 : (lst.length - 1) / nn = 0 := Nat.div_eq_of_lt (by omega)
      have h4 : (0 + nn - 1) / nn = 0 := Nat.div_eq_of_lt (by omega)
      rw [h3, h4]
    · have h2 : lst.length - nn + nn - 1 = (lst.length - nn - 1) + nn := by omega
      rw [h2, Nat.add_div_right _ hn]
      have h3 : lst.length - 1 = (lst.length - nn - 1) + nn := by omega
      rw [h3, Nat.add_div_right _ hn]
  rw [hcount, List.range_succ_eq_map, List.map_cons]
  congr 1
  · simp
  · rw [List.map_map]
    apply List.map_congr_left
    intro i _
    show (lst.drop ((i + 1) * nn)).take nn = ((lst.drop nn).drop (i * nn)).take nn
    rw [List.drop_drop]
    congr 2
    ring

/-- Chunking properties of `divide`'s loop body for a positive chunk size:
concatenation restores the input, no chunk is empty or longer than the chunk
size, all non-final chunks are full, and a non-empty input yields at least
one chunk. -/
theorem Seller.pyChunks_spec {α : Type} (nn : Nat) (hn : 0 < nn) :
    ∀ (k : Nat) (lst : List α), lst.length ≤ k →
      (Seller.pyChunks lst nn).flatten = lst ∧
      (∀ c ∈ Seller.pyChunks lst nn, c ≠ [] ∧ c.length ≤ nn) ∧
      (∀ c ∈ (Seller.pyChunks lst nn).dropLast, c.length = nn) ∧
      (lst ≠ [] → Seller.pyChunks lst nn ≠ []) := by
  intro k
  induction k with
  | zero =>
    intro lst hlen
    have hnil : lst = [] := List.length_eq_zero.mp (Nat.le_zero.mp hlen)
    subst hnil
    rw [Seller.pyChunks_nil]
    exact ⟨rfl, by simp, by simp, fun h => absurd rfl h⟩
  | succ k ih =>
    intro lst hlen
    by_cases hne : lst = []
    · subst hne
      rw [Seller.pyChunks_nil]
      exact ⟨rfl, by simp, by simp, fun h => absurd rfl h⟩
    · have hL : 0 < lst.length := List.length_pos.mpr hne
      have hdroplen : (lst.drop nn).length ≤ k := by
        rw [List.length_drop]
        omega
      obtain ⟨hjoin, hmem, hdl, _⟩ := ih (lst.drop nn) hdroplen
      rw [Seller.pyChunks_cons lst nn hn hne]
      refine ⟨?_, ?_, ?_, ?_⟩
      · rw [List.flatten_cons, hjoin]
        exact List.take_append_drop nn lst
      · intro c hc
        rcases List.mem_cons.mp hc with hc | hc
        · subst hc
          refine ⟨?_, ?_⟩
          · rw [Ne, List.take_eq_nil_iff]
            push_neg
            exact ⟨by omega, hne⟩
          · rw [List.length_take]
            exact min_le_left _ _
        · exact hmem c hc
      · cases hrec : Seller.pyChunks (lst.drop nn) nn with
        | nil => simp
        | cons c' cs' =>
          intro c hc
          rw [List.dropLast_cons₂] at hc
          rcases List.mem_cons.mp hc with hc | hc
          · subst hc
            have hdne : lst.drop nn ≠ [] := by
              intro hcontra
              rw [hcontra, Seller.pyChunks_nil] at hrec
              cases hrec
            have : nn < lst.length := by
              rw [Ne, List.drop_eq_nil_iff] at hdne
              omega
            rw [List.length_take]
            omega
          · rw [← hrec] at hc
            exact hdl c hc
      · simp

/-- C6: for every list and every chunk size `n > 0`, `divide` succeeds;
concatenating its chunks in order restores the input exactly, every chunk has
length at most `n`, every chunk except possibly the last has length exactly
`n`, and on non-empty input the last chunk has between 1 and `n` elements. -/
theorem c6_divide_chunking {α : Type} (S : List α) (n : Int) (hn : 0 < n) :
    ∃ cs, Seller.divide S n = .ok cs ∧
      cs.flatten = S ∧
      (∀ c ∈ cs, c.length ≤ n.toNat) ∧
      (∀ c ∈ cs.dropLast, c.length = n.toNat) ∧
      (S ≠ [] → ∃ l, cs.getLast? = some l ∧ 1 ≤ l.length ∧ l.length ≤ n.toNat) := by
  have hnn : 0 < n.toNat := by omega
  have hdiv : Seller.divide S n = .ok (Seller.pyChunks S n.toNat) := by
    unfold Seller.divide
    rw [if_neg (by omega), if_neg (by omega)]
  obtain ⟨hjoin, hmem, hdl, hnonnil⟩ :=
    Seller.pyChunks_spec n.toNat hnn S.length S (le_refl _)
  refine ⟨Seller.pyChunks S n.toNat, hdiv, hjoin, fun c hc => (hmem c hc).2, hdl, ?_⟩
  intro hS
  have hcs := hnonnil hS
  refine ⟨(Seller.pyChunks S n.toNat).getLast hcs,
    List.getLast?_eq_getLast _ hcs, ?_, ?_⟩
  · have := (hmem _ (List.getLast_mem hcs)).1
    have hpos : 0 < ((Seller.pyChunks S n.toNat).getLast hcs).length :=
      List.length_pos.mpr this
    omega
  · exact (hmem _ (List.getLast_mem hcs)).2

/-- Witness for C6 at `S = [1,2,3,4,5]`, `n = 2`. -/
theorem c6_witness :
    ∃ cs, Seller.divide [1, 2, 3, 4, 5] (2 : Int) = .ok cs ∧
      cs.flatten = [1, 2, 3, 4, 5] ∧
      (∀ c ∈ cs, c.length ≤ (2 : Int).toNat) ∧
      (∀ c ∈ cs.dropLast, c.length = (2 : Int).toNat) ∧
      (([1, 2, 3, 4, 5] : List Nat) ≠ [] →
        ∃ l, cs.getLast? = some l ∧ 1 ≤ l.length ∧ l.length ≤ (2 : Int).toNat) :=
  c6_divide_chunking [1, 2, 3, 4, 5] 2 (by decide)

/-- C9 (amended: `divide` fails only for chunk size `0`, as the
counterexample `c9_counterexample` forces): the empty list with `n > 0`
yields no chunks; `n = 0` fails with the `range()` invalid-argument error;
and every `n < 0` silently yields no chunks instead of failing, because
`range(0, len(lst), n)` is empty for a negative step. -/
theorem c9_divide_empty_and_nonpositive {α : Type} (lst : List α) (n : Int) :
    (0 < n → Seller.divide ([] : List α) n = .ok []) ∧
    (n = 0 → Seller.divide lst n = .error "range() arg 3 must not be zero") ∧
    (n < 0 → Seller.divide lst n = .ok []) := by
  refine ⟨?_, ?_, ?_⟩
  · intro hn
    unfold Seller.divide
    rw [if_neg (by omega), if_neg (by omega), Seller.pyChunks_nil]
  · intro hn
    unfold Seller.divide
    rw [if_pos hn]
  · intro hn
    unfold Seller.divide
    rw [if_neg (by omega), if_pos hn]

/-- Witness for C9: the three branches at `n = 3`, `n = 0`, `n = -1`. -/
theorem c9_witness :
    Seller.divide ([] : List Nat) 3 = .ok [] ∧
    Seller.divide [(1 : Nat)] 0 = .error "range() arg 3 must not be zero" ∧
    Seller.divide [(1 : Nat)] (-2) = .ok [] :=
  ⟨(c9_divide_empty_and_nonpositive ([] : List Nat) 3).1 (by decide),
   (c9_divide_empty_and_nonpositive [(1 : Nat)] 0).2.1 rfl,
   (c9_divide_empty_and_nonpositive [(1 : Nat)] (-2)).2.2 (by decide)⟩

/-- Counterexample to C9 as stated: for the negative chunk size `-1` on a
non-empty list, `divide` does not fail — it yields no chunks at all. -/
theorem c9_counterexample :
    Seller.divide [(1 : Nat)] (-1) = .ok [] ∧
    ∀ e, Seller.divide [(1 : Nat)] (-1) ≠ .error e := by
  refine ⟨rfl, ?_⟩
  intro e h
  rw [show Seller.divide [(1 : Nat)] (-1) = .ok [] from rfl] at h
  cases h

/-- If the break test `total == len(product_list)` first succeeds at page `k`,
the pagination loop run with enough fuel stops there and returns the items
accumulated through page `k`. -/
theorem fetchLoop_reaches (api : String → ProductPage) (k : Nat)
    (hhit : (api (traceCursor api k)).total = (traceItems api (k + 1)).length)
    (hpre : ∀ j < k, (api (traceCursor api j)).total ≠ (traceItems api (j + 1)).length) :
    ∀ (fuel m : Nat), m ≤ k → k < m + fuel →
      fetchLoop api fuel (traceCursor api m) (traceItems api m) =
        some (traceItems api (k + 1)) := by
  intro fuel
  induction fuel with
  | zero => intro m hm hk; omega
  | succ fuel ih =>
    intro m hm hk
    simp only [fetchLoop]
    by_cases hm_eq : m = k
    · subst hm_eq
      have hcond : (api (traceCursor api m)).total =
          (traceItems api m ++ (api (traceCursor api m)).items).length := hhit
      rw [if_pos hcond]
      rfl
    · have hmk : m < k := lt_of_le_of_ne hm hm_eq
      have hcond : (api (traceCursor api m)).total ≠
          (traceItems api m ++ (api (traceCursor api m)).items).length := hpre m hmk
      rw [if_neg hcond]
      exact ih (m + 1) (by omega) (by omega)

/-- C7 (amended: all responses must report one common total, as the
counterexample `c7_counterexample` forces): `get_offer_ids` starts at the
empty-string cursor and breaks exactly when the accumulated item count equals
the reported total; if every response has non-empty items, every response
reports the same total `T`, and the accumulated count never exceeds `T`
before first reaching it, then the loop terminates within `T` requests and
returns the `offer_id` of every accumulated item in page order. -/
theorem c7_catalog_fetch_terminates (api : String → ProductPage) (T : Nat)
    (hne : ∀ c, (api c).items ≠ [])
    (htot : ∀ c, (api c).total = T)
    (hbound : ∀ k, (∀ j < k, (traceItems api (j + 1)).length ≠ T) →
      (traceItems api (k + 1)).length ≤ T) :
    ∃ k, k < T ∧ (traceItems api (k + 1)).length = T ∧
      get_offer_ids api T = some ((traceItems api (k + 1)).map Product.offer_id) := by
  have hgrow : ∀ k, (traceItems api k).length < (traceItems api (k + 1)).length := by
    intro k
    show (traceItems api k).length <
      (traceItems api k ++ (api (traceCursor api k)).items).length
    rw [List.length_append]
    have hpos := List.length_pos.mpr (hne (traceCursor api k))
    omega
  have hge : ∀ k, k + 1 ≤ (traceItems api (k + 1)).length := by
    intro k
    induction k with
    | zero =>
      have h0 := hgrow 0
      simp only [traceItems, List.length_nil] at h0
      simpa [traceItems] using h0
    | succ k ihk =>
      have := hgrow (k + 1)
      omega
  have hex : ∃ j, (traceItems api (j + 1)).length = T := by
    by_contra hno
    push_neg at hno
    have hb : ∀ k, (traceItems api (k + 1)).length ≤ T :=
      fun k => hbound k (fun j _ => hno j)
    have h1 := hge T
    have h2 := hb T
    omega
  have hk : (traceItems api (Nat.find hex + 1)).length = T := Nat.find_spec hex
  have hkmin : ∀ j, j < Nat.find hex → (traceItems api (j + 1)).length ≠ T :=
    fun j hj => Nat.find_min hex hj
  have hkT : Nat.find hex < T := by
    have h1 := hge (Nat.find hex)
    omega
  refine ⟨Nat.find hex, hkT, hk, ?_⟩
  have hrun : fetchLoop api T (traceCursor api 0) (traceItems api 0) =
      some (traceItems api (Nat.find hex + 1)) :=
    fetchLoop_reaches api (Nat.find hex)
      ((htot _).trans hk.symm)
      (fun j hj hcontra => hkmin j hj (((htot _).symm.trans hcontra).symm))
      T 0 (by omega) (by omega)
  have hrun' : fetchLoop api T "" [] =
      some (traceItems api (Nat.find hex + 1)) := hrun
  unfold get_offer_ids
  rw [hrun']
  rfl

/-- A single-item page source with constant total 1, used to witness the
amended C7. -/
def constApi : String → ProductPage := fun c => ⟨[⟨"x"⟩], 1, c⟩

/-- Witness for C7 with a one-page catalog of total 1. -/
theorem c7_witness :
    ∃ k, k < 1 ∧ (traceItems constApi (k + 1)).length = 1 ∧
      get_offer_ids constApi 1 =
        some ((traceItems constApi (k + 1)).map Product.offer_id) :=
  c7_catalog_fetch_terminates constApi 1
    (fun c => by simp [constApi])
    (fun c => rfl)
    (by
      intro k hkpre
      cases k with
      | zero => simp [traceItems, traceCursor, constApi]
      | succ k =>
        exact absurd (by simp [traceItems, traceCursor, constApi])
          (hkpre 0 (Nat.succ_pos k)))

/-- A page source whose responses all have one item and report an
ever-growing total, so the accumulated count always stays strictly below the
reported total and the break test never fires. -/
def growApi : String → ProductPage := fun c => ⟨[⟨"x"⟩], c.length + 2, c ++ "a"⟩

/-- The cursor of `growApi`'s run grows by one character per page. -/
theorem growApi_cursor_len : ∀ k, (traceCursor growApi k).length = k := by
  intro k
  induction k with
  | zero => rfl
  | succ k ih =>
    show (traceCursor growApi k ++ "a").length = k + 1
    rw [String.length_append, ih]
    rfl

/-- `growApi`'s run accumulates exactly one item per page. -/
theorem growApi_items_len : ∀ k, (traceItems growApi k).length = k := by
  intro k
  induction k with
  | zero => rfl
  | succ k ih =>
    show (traceItems growApi k ++ (growApi (traceCursor growApi k)).items).length = k + 1
    rw [List.length_append, ih]
    rfl

/-- On `growApi` the pagination loop never breaks, whatever the fuel. -/
theorem growApi_loop_none :
    ∀ (fuel : Nat) (c : String) (acc : List Product), acc.length = c.length →
      fetchLoop growApi fuel c acc = none := by
  intro fuel
  induction fuel with
  | zero => intro c acc _; rfl
  | succ fuel ih =>
    intro c acc h
    simp only [fetchLoop]
    rw [if_neg (by simp [growApi, List.length_append, h])]
    have hstep : (acc ++ (growApi c).items).length = ((growApi c).last_id).length := by
      simp only [growApi, List.length_append, h, String.length_append]
      rfl
    exact ih (growApi c).last_id (acc ++ (growApi c).items) hstep

/-- Counterexample to C7 as stated: on the page source `growApi` every
response has non-empty items and the accumulated count never exceeds the
reported total, yet the break test `total == len(product_list)` never fires,
so `get_offer_ids` does not terminate for any amount of fuel. -/
theorem c7_counterexample :
    (∀ c, (growApi c).items ≠ []) ∧
    (∀ k, (traceItems growApi (k + 1)).length ≤
      (growApi (traceCursor growApi k)).total) ∧
    (∀ fuel, get_offer_ids growApi fuel = none) := by
  refine ⟨fun c => by simp [growApi], ?_, ?_⟩
  · intro k
    rw [growApi_items_len (k + 1)]
    show k + 1 ≤ (traceCursor growApi k).length + 2
    rw [growApi_cursor_len k]
    omega
  · intro fuel
    unfold get_offer_ids
    rw [growApi_loop_none fuel "" [] rfl]
    rfl

/-- C8 (evaluated at the failing input): in `seller.main` every stock-update
call precedes every price-update call, but in `market.main` the price phase
issues no network call at all — `upload_prices` is an `async def` invoked
without `await` (lines 342 and 351 of market.py) and its coroutine never
runs, so a run whose campaigns both list offer `"A"` issues exactly the two
stock-update calls and no price-update call. -/
theorem c8_orchestrator_phases :
    (∀ (ws : List Remnant) (ids : List String) (calls : List SellerCall),
      Seller.main_calls ws ids = .ok calls →
      ∃ (sbs : List (List Seller.StockRecord)) (pbs : List (List Seller.PriceRecord)),
        calls = sbs.map SellerCall.updateStocks ++
          pbs.map SellerCall.updatePrice) ∧
    (Market.main_calls [⟨"A", "5", "100"⟩] "FBS" "DBS" ["A"] ["A"] "w1" "w2" "d1" "d2" =
      .ok [MarketCall.updateStocks "FBS" [⟨"A", "w1", [⟨5, "FIT", "d1"⟩]⟩],
           MarketCall.updateStocks "DBS" [⟨"A", "w2", [⟨5, "FIT", "d2"⟩]⟩]]) ∧
    (∀ campaign batch,
      MarketCall.updatePrice campaign batch ∉
        [MarketCall.updateStocks "FBS" [⟨"A", "w1", [⟨5, "FIT", "d1"⟩]⟩],
         MarketCall.updateStocks "DBS" [⟨"A", "w2", [⟨5, "FIT", "d2"⟩]⟩]]) := by
  refine ⟨?_, rfl, ?_⟩
  · intro ws ids calls h
    unfold Seller.main_calls at h
    split at h
    · cases h
    · split at h
      · cases h
      · split at h
        · cases h
        · simp only [Except.ok.injEq] at h
          exact ⟨_, _, h.symm⟩
  · intro campaign batch hmem
    simp [List.mem_cons] at hmem

/-- Witness for C8's seller part: a run with one remnant and one offer id
issues its single stock batch before any price batch. -/
theorem c8_witness :
    ∃ (sbs : List (List Seller.StockRecord)) (pbs : List (List Seller.PriceRecord)),
      [SellerCall.updateStocks [⟨"X", 5⟩]] = sbs.map SellerCall.updateStocks ++
        pbs.map SellerCall.updatePrice :=
  (c8_orchestrator_phases).1 [⟨"X", "5", "p"⟩] ["X"]
    [SellerCall.updateStocks [⟨"X", 5⟩]] rfl
